import Mathlib

/-!
Verification of the generic ASN.1 BER/DER encoding engine (Go package `asn1`,
files `options.go` and `encode.go`) against its natural-language specification.

The Go code is shallowly embedded: Go values reachable by the encoder are
modelled by the inductive `Asn1.GoValue`; machine integers are `Int`/`Nat`;
fallible Go functions returning `(T, error)` become `Except Err T`.  Struct
metadata (field names and their directive/tag strings) is carried inside
`GoValue.vstruct`, mirroring what Go reflection exposes.  Recursion of the
encoder is bounded by an explicit fuel parameter (`Err.outOfFuel` plays the
role of the unbounded Go call stack); all list traversals are structural, so
every definition evaluates by kernel reduction on concrete inputs.

Components of the repository that the claims depend on but whose source is not
part of the two files (the `rawValue` byte serialization, tag and class
constants, the choice/variant lookup services, `newDefaultValue`, the
primitive content encoders and the SET sort order) are modelled from the
specification; each such definition carries a doc comment starting with
`Modelled from the spec:`.
-/

/-- Decidable equality for `Except`, used to settle concrete runs of the
embedded encoder by `decide`. -/
instance {ε α : Type _} [DecidableEq ε] [DecidableEq α] : DecidableEq (Except ε α) := fun a b =>
  match a, b with
  | .error e1, .error e2 =>
    match decEq e1 e2 with
    | isTrue h => isTrue (by rw [h])
    | isFalse h => isFalse (by intro hh; cases hh; exact h rfl)
  | .error _, .ok _ => isFalse (by intro h; cases h)
  | .ok _, .error _ => isFalse (by intro h; cases h)
  | .ok a1, .ok a2 =>
    match decEq a1 a2 with
    | isTrue h => isTrue (by rw [h])
    | isFalse h => isFalse (by intro hh; cases hh; exact h rfl)

namespace Asn1

/-- Errors produced by the embedded code.  `syntaxErr`, `typeErr` and
`lookupErr` mirror the syntax/type/lookup error taxonomy of the package;
`panic` models a Go runtime panic (e.g. a nil-pointer dereference), which is
distinct from a returned error; `outOfFuel` marks exhaustion of the explicit
recursion bound and corresponds to no behaviour of the Go code. -/
inductive Err where
  | syntaxErr (msg : String)
  | typeErr (msg : String)
  | lookupErr (msg : String)
  | panic (msg : String)
  | outOfFuel
deriving DecidableEq, Repr

/-- Embedding of `fieldOptions` from options.go: the parsed form of one
directive string. -/
structure fieldOptions where
  universal : Bool := false
  application : Bool := false
  explicit : Bool := false
  indefinite : Bool := false
  optional : Bool := false
  unique : Bool := false
  set : Bool := false
  tag : Option Int := none
  defaultValue : Option Int := none
  choice : Option String := none
  choices : Option String := none
  variant : Option String := none
deriving DecidableEq, Repr

/-- Embedding of the `rawValue` TLV node (its declaration lives outside the
two source files; the shape is fixed by spec section 3: class, tag,
constructed flag, content bytes, indefinite flag). -/
structure rawValue where
  Class : Nat := 0
  Tag : Nat := 0
  Constructed : Bool := false
  Indefinite : Bool := false
  Content : List Nat := []
deriving DecidableEq, Repr

/-- Go values reachable by the encoder, as exposed to it by reflection.
`vstruct` carries for every field its name, its directive (struct-tag) string
and its value, in declaration order; `vslice` is a slice or array with
non-byte element type and carries the Go type name used as the key of choice
table lookups; `vbytes` is a slice or array of bytes.  Interface indirection
(`getActualType`) is already stripped: a `GoValue` is the concrete value. -/
inductive GoValue where
  | vint (n : Int)
  | vbool (b : Bool)
  | vstr (s : String)
  | vbytes (bs : List Nat)
  | vstruct (tname : String) (fields : List (String × String × GoValue))
  | vslice (tname : String) (elems : List GoValue)

/-- Key identifying a value's Go type, standing in for `reflect.Type` in
choice table lookups and error messages. -/
def typeKey : GoValue → String
  | .vint _ => "int"
  | .vbool _ => "bool"
  | .vstr _ => "string"
  | .vbytes _ => "[]byte"
  | .vstruct t _ => t
  | .vslice t _ => t

mutual
/-- Embedding of `isEmpty` from encode.go: a value is empty iff it equals
the zero value of its type (`reflect.DeepEqual` with `reflect.Zero`); for a
struct this holds iff every field is empty. -/
def isEmpty : GoValue → Bool
  | .vint n => n == 0
  | .vbool b => b == false
  | .vstr s => s == ""
  | .vbytes bs => bs.isEmpty
  | .vstruct _ fs => isEmptyFields fs
  | .vslice _ es => es.isEmpty

/-- Helper of `isEmpty` for the field list of a struct. -/
def isEmptyFields : List (String × String × GoValue) → Bool
  | [] => true
  | f :: rest => isEmpty f.2.2 && isEmptyFields rest
end

/-- Embedding of `isFieldExported` from encode.go: the field name starts
with an upper-case letter.  (Go panics on an empty name; Go field names are
never empty, the model returns `false` there.) -/
def isFieldExported (name : String) : Bool :=
  (name.data.headD 'a').isUpper

/-- Embedding of `reflect.Value.String()` as used on the `unique` variant
discriminant field: the underlying string for string-kinded values, a
placeholder of the form produced by the reflect package otherwise. -/
def goString : GoValue → String
  | .vstr s => s
  | v => "<" ++ typeKey v ++ " Value>"

/-! ## Directive grammar parser (options.go) -/

/-- Embedding of Go `strings.Split` on a character list: split at every
occurrence of `sep`; the empty input yields one empty token. -/
def splitCharList (sep : Char) : List Char → List (List Char)
  | [] => [[]]
  | c :: cs =>
    let r := splitCharList sep cs
    if c = sep then [] :: r
    else
      match r with
      | t :: ts => (c :: t) :: ts
      | [] => [[c]]

/-- Embedding of Go `strings.TrimSpace` on a character list. -/
def trimChars (cs : List Char) : List Char :=
  ((cs.dropWhile Char.isWhitespace).reverse.dropWhile Char.isWhitespace).reverse

/-- Value of a nonempty all-digit character list, `none` otherwise. -/
def digitsVal (cs : List Char) : Option Nat :=
  if cs ≠ [] ∧ cs.all Char.isDigit then
    some (cs.foldl (fun a c => a * 10 + (c.toNat - 48)) 0)
  else none

/-- Embedding of Go `strconv.Atoi`: an optional sign followed by at least
one digit (overflow is ignored: directive integers are small). -/
def goAtoi : List Char → Option Int
  | '-' :: rest => (digitsVal rest).map (fun n => -(n : Int))
  | '+' :: rest => (digitsVal rest).map (fun n => (n : Int))
  | cs => (digitsVal cs).map (fun n => (n : Int))

/-- Embedding of `parseBoolOption` from options.go: fails when the token
carries any argument. -/
def parseBoolOption (args : List (List Char)) : Except Err Bool :=
  if args.length > 1 then
    .error (.syntaxErr ("option " ++ (args.headD []).asString ++ " does not have arguments."))
  else .ok true

/-- Embedding of `parseIntOption` from options.go: exactly one argument,
parsed by `strconv.Atoi`. -/
def parseIntOption (args : List (List Char)) : Except Err Int :=
  if args.length ≠ 2 then .error (.syntaxErr "option does not have arguments.")
  else
    match goAtoi (args.getD 1 []) with
    | none =>
      .error (.syntaxErr ("invalid value " ++ (args.getD 1 []).asString ++
        " for option " ++ (args.headD []).asString ++ "."))
    | some n => .ok n

/-- Embedding of `parseStringOption` from options.go: exactly one argument,
taken verbatim. -/
def parseStringOption (args : List (List Char)) : Except Err String :=
  if args.length ≠ 2 then .error (.syntaxErr "option does not have arguments.")
  else .ok (args.getD 1 []).asString

/-- Embedding of `parseOption` from options.go: dispatch on the token name;
the empty token is silently ignored; an unknown name is a syntax error. -/
def parseOption (opts : fieldOptions) (args : List (List Char)) : Except Err fieldOptions :=
  let a0 := args.headD []
  if a0 = [] then .ok opts
  else if a0 = "universal".data then (parseBoolOption args).map (fun b => { opts with universal := b })
  else if a0 = "application".data then (parseBoolOption args).map (fun b => { opts with application := b })
  else if a0 = "explicit".data then (parseBoolOption args).map (fun b => { opts with explicit := b })
  else if a0 = "indefinite".data then (parseBoolOption args).map (fun b => { opts with indefinite := b })
  else if a0 = "optional".data then (parseBoolOption args).map (fun b => { opts with optional := b })
  else if a0 = "unique".data then (parseBoolOption args).map (fun b => { opts with unique := b })
  else if a0 = "set".data then (parseBoolOption args).map (fun b => { opts with set := b })
  else if a0 = "tag".data then (parseIntOption args).map (fun n => { opts with tag := some n })
  else if a0 = "default".data then (parseIntOption args).map (fun n => { opts with defaultValue := some n })
  else if a0 = "choice".data then (parseStringOption args).map (fun s => { opts with choice := some s })
  else if a0 = "choices".data then (parseStringOption args).map (fun s => { opts with choices := some s })
  else if a0 = "variant".data then (parseStringOption args).map (fun s => { opts with variant := some s })
  else .error (.syntaxErr ("Invalid option: " ++ a0.asString))

/-- Embedding of `fieldOptions.validate` from options.go, returning the
first failing constraint if any. -/
def validate (opts : fieldOptions) : Option Err :=
  if opts.universal ∧ opts.tag = none then
    some (.syntaxErr "tag must be specified when universal is used")
  else if opts.application ∧ opts.tag = none then
    some (.syntaxErr "tag must be specified when application is used")
  else if (opts.tag.getD 0) < 0 ∧ opts.tag ≠ none then
    some (.syntaxErr ("tag cannot be negative: " ++ toString (opts.tag.getD 0)))
  else if opts.choice = some "" then
    some (.syntaxErr "choice cannot be empty")
  else none

/-- Token-folding loop of `parseOptions`: each comma-separated token is
trimmed, split at colons and merged by `parseOption`. -/
def parseTokens (opts : fieldOptions) : List (List Char) → Except Err fieldOptions
  | [] => .ok opts
  | t :: rest =>
    match parseOption opts (splitCharList ':' (trimChars t)) with
    | .error e => .error e
    | .ok o2 => parseTokens o2 rest

/-- Embedding of `parseOptions` from options.go: `"-"` is the ignore
sentinel (yields `none`); otherwise tokens are merged into a `fieldOptions`
which is then validated. -/
def parseOptions (s : String) : Except Err (Option fieldOptions) :=
  if s = "-" then .ok none
  else
    match parseTokens {} (splitCharList ',' s.data) with
    | .error e => .error e
    | .ok opts =>
      match validate opts with
      | some e => .error e
      | none => .ok (some opts)

/-! ## Spec-modelled leaf services

The declarations of the tag/class constants, the TLV byte serialization, the
choice/variant table lookups, the default-value constructor and the primitive
content encoders live outside the two source files; they are modelled here
from the specification (sections 3, 4.2, 4.3 and 6). -/

/-- Modelled from the spec: universal class bits (section 6). -/
def classUniversal : Nat := 0

/-- Modelled from the spec: application class bits (section 6). -/
def classApplication : Nat := 1

/-- Modelled from the spec: context-specific class bits (section 6). -/
def classContextSpecific : Nat := 2

/-- Modelled from the spec: universal tag numbers used by the value
classifier (section 4.3 and the X.690 tag assignments it references). -/
def tagBoolean : Nat := 1

/-- Modelled from the spec: the INTEGER universal tag. -/
def tagInteger : Nat := 2

/-- Modelled from the spec: the OCTET STRING universal tag. -/
def tagOctetString : Nat := 4

/-- Modelled from the spec: the SEQUENCE universal tag. -/
def tagSequence : Nat := 16

/-- Modelled from the spec: the SET universal tag. -/
def tagSet : Nat := 17

/-- Big-endian digits of `n` in base `b` (empty for zero); the first
argument is a structural-recursion bound, always called with fuel `n + 1`
which exceeds the digit count. -/
def natDigitsBEAux (b : Nat) : Nat → Nat → List Nat
  | 0, _ => []
  | f + 1, n => if n = 0 then [] else natDigitsBEAux b f (n / b) ++ [n % b]

/-- Big-endian digits of `n` in base `b`, empty for `n = 0`. -/
def natDigitsBE (b n : Nat) : List Nat := natDigitsBEAux b (n + 1) n

/-- Sets the continuation bit (adds 128) on every base-128 digit except the
last, as required by the long-form tag encoding. -/
def setHigh : List Nat → List Nat
  | [] => []
  | [x] => [x]
  | x :: xs => (x + 128) :: setHigh xs

/-- Modelled from the spec: `rawValue.encode`, the TLV byte-serialization
primitive (section 6).  Identifier octets carry the class in the top two
bits, the constructed bit, and the tag (short form when at most 30, long
form in base-128 groups otherwise); length octets use the short form for
content shorter than 128 bytes and the long form otherwise; when
`Indefinite` is set a single 0x80 length octet is emitted and the content is
terminated by two zero octets. -/
def rawEncode (r : rawValue) : List Nat :=
  let idBase := r.Class * 64 + (if r.Constructed then 32 else 0)
  let ident :=
    if r.Tag ≤ 30 then [idBase + r.Tag]
    else (idBase + 31) :: setHigh (natDigitsBE 128 r.Tag)
  if r.Indefinite then ident ++ [128] ++ r.Content ++ [0, 0]
  else
    let n := r.Content.length
    let lenB := if n < 128 then [n] else (128 + (natDigitsBE 256 n).length) :: natDigitsBE 256 n
    ident ++ lenB ++ r.Content

/-- Modelled from the spec: an absent node ("return nil, nil") serializes to
zero bytes — spec section 4.2 step 4: the caller drops an absent result, and
`EncodeWithOptions` calls `raw.encode()` on a possibly-nil raw value. -/
def rawEncodeOpt : Option rawValue → List Nat
  | none => []
  | some r => rawEncode r

/-- Modelled from the spec: minimal two's-complement big-endian INTEGER
content encoding (`encodeInt`; the spec fixes value 7 to content byte 0x07). -/
def encodeIntContent (n : Int) : List Nat :=
  if 0 ≤ n then
    let bs := natDigitsBE 256 n.toNat
    let bs := if bs = [] then [0] else bs
    if 128 ≤ bs.headD 0 then 0 :: bs else bs
  else
    let k := (((List.range 16).map (· + 1)).find? (fun k => -((2 : Int) ^ (8 * k - 1)) ≤ n)).getD 16
    let ds := natDigitsBE 256 ((2 : Int) ^ (8 * k) + n).toNat
    List.replicate (k - ds.length) 0 ++ ds

/-- Modelled from the spec: BOOLEAN content encoding (`encodeBool`). -/
def encodeBoolContent (b : Bool) : List Nat :=
  if b then [255] else [0]

/-- UTF-8 encoding of a single character. -/
def utf8Char (c : Char) : List Nat :=
  let n := c.toNat
  if n < 128 then [n]
  else if n < 2048 then [192 + n / 64, 128 + n % 64]
  else if n < 65536 then [224 + n / 4096, 128 + (n / 64) % 64, 128 + n % 64]
  else [240 + n / 262144, 128 + (n / 4096) % 64, 128 + (n / 64) % 64, 128 + n % 64]

/-- Modelled from the spec: string content encoding (`encodeString`) — the
UTF-8 bytes of the string. -/
def encodeStringContent (s : String) : List Nat :=
  (s.data.map utf8Char).flatten

/-- A choice table entry as registered in the encoding context: spec
section 3, `(alternativeType, class, tag, nestedOptions)` within a named
table.  `typeName` is the key of `typeKey` form. -/
structure choiceEntry where
  table : String
  typeName : String
  Class : Nat
  Tag : Nat
  opts : fieldOptions
deriving DecidableEq, Repr

/-- A variant table entry: spec section 3,
`(discriminantValue, fieldName) -> nestedOptions` within a named table. -/
structure variantEntry where
  table : String
  discriminant : String
  fieldName : String
  opts : fieldOptions
deriving DecidableEq, Repr

/-- The encoding context: the canonical (DER) mode flag and the read-only
choice/variant tables. -/
structure Context where
  der : Bool
  choiceTable : List choiceEntry := []
  variantTable : List variantEntry := []

/-- Modelled from the spec: `getChoiceByType`, the
`resolveChoiceByType(tableName, concreteType)` lookup service (section 6);
it fails with a lookup error when the type is absent from the named table. -/
def getChoiceByType (ctx : Context) (name : String) (tk : String) : Except Err choiceEntry :=
  match ctx.choiceTable.find? (fun e => e.table == name && e.typeName == tk) with
  | some e => .ok e
  | none => .error (.lookupErr ("choice " ++ name ++ " not found for type " ++ tk))

/-- Modelled from the spec: `getVariant`, the
`resolveVariant(tableName, discriminantValue, fieldName)` lookup service
(section 6); it fails with a lookup error when the entry is absent. -/
def getVariant (ctx : Context) (name d fname : String) : Except Err variantEntry :=
  match ctx.variantTable.find? (fun e => e.table == name && e.discriminant == d && e.fieldName == fname) with
  | some e => .ok e
  | none =>
    .error (.lookupErr ("variant " ++ name ++ "/" ++ d ++ " not found for field " ++ fname))

/-- Modelled from the spec: `newDefaultValue` constructs a fresh instance
representing the integer default directive for the value's type (section 4.2
step 3); for non-integer kinds no such instance exists and a syntax error is
returned. -/
def newDefaultValue (v : GoValue) (opts : fieldOptions) : Except Err GoValue :=
  match v, opts.defaultValue with
  | .vint _, some d => .ok (.vint d)
  | _, some _ => .error (.syntaxErr ("invalid default value for type " ++ typeKey v))
  | _, none => .error (.syntaxErr "invalid default value")

/-- Go conversion `uint(t)` applied to the directive tag. -/
def goUint (t : Int) : Nat := (t % (2 : Int) ^ 64).toNat

/-- Modelled from the spec: the SET sort key — children are ordered
ascending by `(class, tag)` (section 4.4); an absent child has no
identifier, it is keyed first. -/
def rvKey : Option rawValue → Nat × Nat
  | none => (0, 0)
  | some r => (r.Class, r.Tag)

/-- Modelled from the spec: the (total, transitive) comparison realizing the
ascending `(class, tag)` SET order. -/
def rvLe (a b : Option rawValue) : Prop :=
  (rvKey a).1 < (rvKey b).1 ∨ ((rvKey a).1 = (rvKey b).1 ∧ (rvKey a).2 ≤ (rvKey b).2)

instance : DecidableRel rvLe := fun a b => by
  unfold rvLe; infer_instance

instance : IsTotal (Option rawValue) rvLe := by
  constructor; intro a b; unfold rvLe; omega

instance : IsTrans (Option rawValue) rvLe := by
  constructor; intro a b c; unfold rvLe; omega

/-! ## Traversal engine and orchestrator (encode.go)

The struct/slice traversal functions are parameterized by the recursive
entry points they invoke — `enc` stands for `ctx.encode` and `encTop` for
`ctx.EncodeWithOptions`; `Asn1.encode` below ties the knot, instantiating
them at one fuel step less. -/

/-- Shorthand for the type of `ctx.encode` as seen by the traversal
engine: a value and its options yield either an error or an optional
(possibly absent) raw node. -/
abbrev EncFun := GoValue → fieldOptions → Except Err (Option rawValue)

/-- Shorthand for the type of `ctx.EncodeWithOptions` as seen by the
traversal engine. -/
abbrev EncTopFun := GoValue → String → Except Err (List Nat)

/-- Embedding of `encodeRawValues` from encode.go: concatenation of the
serializations of the child nodes (an absent child contributes no bytes). -/
def encodeRawValues (children : List (Option rawValue)) : List Nat :=
  (children.map rawEncodeOpt).flatten

/-- Embedding of the variant sub-field loop of `getRawValuesFromFields`
(encode.go): sub-fields are iterated in declaration order threading the
recorded discriminant `u` (initially empty).  While `u` is empty each
sub-field parses its own directive, and a sub-field whose options carry
`unique` records its value's string form in `u`; once `u` is nonempty every
remaining sub-field resolves its options through the variant table.  A
sub-field whose directive is the ignore sentinel makes the Go code
dereference a nil options pointer, i.e. panic. -/
def encodeVariantFields (ctx : Context) (enc : EncFun) (vn : String) :
    String → List (String × String × GoValue) → Except Err (List (Option rawValue))
  | _, [] => .ok []
  | u, (name, tagStr, fval) :: rest =>
    if u ≠ "" then
      match getVariant ctx vn u name with
      | .error e => .error e
      | .ok elem =>
        match enc fval elem.opts with
        | .error e => .error e
        | .ok raw =>
          match encodeVariantFields ctx enc vn u rest with
          | .error e => .error e
          | .ok csr => .ok (raw :: csr)
    else
      match parseOptions tagStr with
      | .error e => .error e
      | .ok none => .error (.panic "runtime error: invalid memory address or nil pointer dereference")
      | .ok (some o) =>
        let u2 := if o.unique then goString fval else u
        match enc fval o with
        | .error e => .error e
        | .ok raw =>
          match encodeVariantFields ctx enc vn u2 rest with
          | .error e => .error e
          | .ok csr => .ok (raw :: csr)

/-- Embedding of `getRawValuesFromFields` from encode.go: walk the struct
fields in declaration order, skipping unexported fields and fields whose
directive is the ignore sentinel; a field carrying `variant` expands into
its sub-fields through `encodeVariantFields`; every other field is encoded
with its own parsed options and its (possibly absent) node is appended. -/
def getRawValuesFromFields (ctx : Context) (enc : EncFun) :
    List (String × String × GoValue) → Except Err (List (Option rawValue))
  | [] => .ok []
  | (name, tagStr, fval) :: rest =>
    if isFieldExported name then
      match parseOptions tagStr with
      | .error e => .error e
      | .ok none => getRawValuesFromFields ctx enc rest
      | .ok (some opts) =>
        match opts.variant with
        | some vn =>
          match fval with
          | .vstruct _ subs =>
            match encodeVariantFields ctx enc vn "" subs with
            | .error e => .error e
            | .ok cs =>
              match getRawValuesFromFields ctx enc rest with
              | .error e => .error e
              | .ok csr => .ok (cs ++ csr)
          | _ => .error (.panic "reflect: NumField of non-struct type")
        | none =>
          match enc fval opts with
          | .error e => .error e
          | .ok raw =>
            match getRawValuesFromFields ctx enc rest with
            | .error e => .error e
            | .ok csr => .ok (raw :: csr)
    else getRawValuesFromFields ctx enc rest

/-- Embedding of `encodeStruct` from encode.go: the children in
declaration order, serialized and concatenated. -/
def encodeStruct (ctx : Context) (enc : EncFun)
    (fields : List (String × String × GoValue)) : Except Err (List Nat) :=
  match getRawValuesFromFields ctx enc fields with
  | .error e => .error e
  | .ok cs => .ok (encodeRawValues cs)

/-- Embedding of `encodeStructAsSet` from encode.go: like `encodeStruct`,
but in DER mode the children are first sorted (stable sort ascending by
class and tag, spec section 4.4). -/
def encodeStructAsSet (ctx : Context) (enc : EncFun)
    (fields : List (String × String × GoValue)) : Except Err (List Nat) :=
  match getRawValuesFromFields ctx enc fields with
  | .error e => .error e
  | .ok cs => .ok (encodeRawValues (if ctx.der then List.insertionSort rvLe cs else cs))

/-- Embedding of `encodeSlice` from encode.go: each element is encoded
through the full top-level path with no directives, results concatenated in
element order. -/
def encodeSlice (encTop : EncTopFun) : List GoValue → Except Err (List Nat)
  | [] => .ok []
  | e :: rest =>
    match encTop e "" with
    | .error er => .error er
    | .ok bs =>
      match encodeSlice encTop rest with
      | .error er => .error er
      | .ok bsr => .ok (bs ++ bsr)

/-- Embedding of `encodeChoices` from encode.go: each element is encoded
through the full top-level path with the synthesized directive
`choice:<name>`, results concatenated in element order. -/
def encodeChoices (encTop : EncTopFun) (nm : String) : List GoValue → Except Err (List Nat)
  | [] => .ok []
  | e :: rest =>
    match encTop e ("choice:" ++ nm) with
    | .error er => .error er
    | .ok bs =>
      match encodeChoices encTop nm rest with
      | .error er => .error er
      | .ok bsr => .ok (bs ++ bsr)

/-- Embedding of `encodeValue` from encode.go, restricted to the kinds a
`GoValue` can take (the designated special types of the classifier are Go
types outside this value universe): booleans, strings, integers, byte
slices, structs (SEQUENCE, constructed; encoded as SET when the `set`
directive is given) and non-byte slices (SEQUENCE, constructed; with a local
pre-resolution of `choice` followed by either `encodeChoices` or
`encodeSlice`). -/
def encodeValue (ctx : Context) (enc : EncFun) (encTop : EncTopFun)
    (v : GoValue) (opts : fieldOptions) : Except Err rawValue :=
  match v with
  | .vbool b => .ok { Tag := tagBoolean, Content := encodeBoolContent b }
  | .vstr s => .ok { Tag := tagOctetString, Content := encodeStringContent s }
  | .vint n => .ok { Tag := tagInteger, Content := encodeIntContent n }
  | .vbytes bs => .ok { Tag := tagOctetString, Content := bs }
  | .vstruct _ fields =>
    match (if opts.set then encodeStructAsSet ctx enc fields else encodeStruct ctx enc fields) with
    | .error e => .error e
    | .ok content => .ok { Tag := tagSequence, Constructed := true, Content := content }
  | .vslice tn elems =>
    let opts2 :=
      match opts.choice with
      | some cn => (getChoiceByType ctx cn tn).map choiceEntry.opts
      | none => .ok opts
    match opts2 with
    | .error e => .error e
    | .ok o2 =>
      match (match o2.choices with
             | some chn => encodeChoices encTop chn elems
             | none => encodeSlice encTop elems) with
      | .error e => .error e
      | .ok content => .ok { Tag := tagSequence, Constructed := true, Content := content }

/-- Embedding of `applyOptions` from encode.go, with its fixed step order:
`set` retag (requires a universal SEQUENCE), `choice` resolution (note: the
source assigns the result and error of the recursive application without
checking the error, then writes the entry's class and tag through the
resulting pointer — when the recursive application fails that pointer is
nil and the program panics, the error being discarded), `explicit` wrap
(requires `tag`), `tag`/`universal`/`application` overrides, and the
`indefinite` flag (requires a constructed node).  The fuel bounds the
`choice` recursion. -/
def applyOptions (ctx : Context) :
    Nat → GoValue → rawValue → fieldOptions → Except Err rawValue
  | 0, _, _, _ => .error .outOfFuel
  | f + 1, v, raw0, opts =>
    let stepSet : Except Err rawValue :=
      if opts.set then
        if raw0.Class ≠ classUniversal ∨ raw0.Tag ≠ tagSequence then
          .error (.syntaxErr ("Go type " ++ typeKey v ++ " does not accept the flag set"))
        else .ok { raw0 with Tag := tagSet }
      else .ok raw0
    match stepSet with
    | .error e => .error e
    | .ok raw1 =>
      let stepChoice : Except Err rawValue :=
        match opts.choice with
        | none => .ok raw1
        | some cn =>
          match getChoiceByType ctx cn (typeKey v) with
          | .error e => .error e
          | .ok entry =>
            match applyOptions ctx f v raw1 entry.opts with
            | .ok r => .ok { r with Class := entry.Class, Tag := entry.Tag }
            | .error _ =>
              .error (.panic "runtime error: invalid memory address or nil pointer dereference")
      match stepChoice with
      | .error e => .error e
      | .ok raw2 =>
        let stepExplicit : Except Err rawValue :=
          if opts.explicit then
            match opts.tag with
            | none =>
              .error (.syntaxErr ("invalid flag explicit without tag on Go type " ++ typeKey v))
            | some _ => .ok { Constructed := true, Content := rawEncode raw2 }
          else .ok raw2
        match stepExplicit with
        | .error e => .error e
        | .ok raw3 =>
          let raw4 :=
            match opts.tag with
            | some t => { raw3 with Class := classContextSpecific, Tag := goUint t }
            | none => raw3
          let raw5 := if opts.universal then { raw4 with Class := classUniversal } else raw4
          let raw6 := if opts.application then { raw5 with Class := classApplication } else raw5
          if opts.indefinite then
            if ¬raw6.Constructed then
              .error (.syntaxErr ("invalid flag indefinite on Go type: " ++ typeKey v))
            else .ok { raw6 with Indefinite := true }
          else .ok raw6

/-- The top-level entry body (`EncodeWithOptions`) abstracted over the
recursive encoder: parse the directive string, return zero bytes for the
ignore sentinel, otherwise encode and serialize the (possibly absent) node. -/
def encodeTop (enc : EncFun) (v : GoValue) (s : String) : Except Err (List Nat) :=
  match parseOptions s with
  | .error e => .error e
  | .ok none => .ok []
  | .ok (some opts) =>
    match enc v opts with
    | .error e => .error e
    | .ok raw => .ok (rawEncodeOpt raw)

/-- Embedding of the main `Context.encode` function from encode.go, with an
explicit fuel bounding the recursion depth: compute emptiness; substitute a
freshly constructed default when a `default` directive is present, the value
is empty and the context is not in DER mode; return an absent result when
(`optional` or `default`) and still empty; otherwise classify and encode the
content and post-process the node with `applyOptions`. -/
def encode (ctx : Context) : Nat → GoValue → fieldOptions → Except Err (Option rawValue)
  | 0, _, _ => .error .outOfFuel
  | f + 1, v, opts =>
    let empty := isEmpty v
    let step1 : Except Err (GoValue × Bool) :=
      if opts.defaultValue.isSome && (empty && !ctx.der) then
        match newDefaultValue v opts with
        | .error e => .error e
        | .ok dv => .ok (dv, false)
      else .ok (v, empty)
    match step1 with
    | .error e => .error e
    | .ok (v2, empty2) =>
      if (opts.optional || opts.defaultValue.isSome) && empty2 then .ok none
      else
        match encodeValue ctx (encode ctx f) (encodeTop (encode ctx f)) v2 opts with
        | .error e => .error e
        | .ok raw =>
          match applyOptions ctx (f + 1) v2 raw opts with
          | .error e => .error e
          | .ok raw2 => .ok (some raw2)

/-- Embedding of `Context.EncodeWithOptions` from encode.go (with explicit
fuel): the full pipeline from a value and a directive string to bytes. -/
def EncodeWithOptions (ctx : Context) (f : Nat) (v : GoValue) (s : String) :
    Except Err (List Nat) :=
  encodeTop (encode ctx f) v s

/-- Embedding of `Context.Encode` from encode.go: encoding with the empty
directive string. -/
def Encode (ctx : Context) (f : Nat) (v : GoValue) : Except Err (List Nat) :=
  EncodeWithOptions ctx f v ""

/-! ## Spec-side descriptions of the variant sub-field passes

These two definitions follow the specification's words for the two phases of
variant resolution (section 4.4) and are compared against
`encodeVariantFields` in the theorems below. -/

/-- Spec description of the pre-discriminant phase: every sub-field parses
and uses its own literal directive string (the ignore sentinel would make
the Go code dereference a nil options pointer, as in `encodeVariantFields`). -/
def variantLiteralPass (enc : EncFun) :
    List (String × String × GoValue) → Except Err (List (Option rawValue))
  | [] => .ok []
  | (_, tagStr, fval) :: rest =>
    match parseOptions tagStr with
    | .error e => .error e
    | .ok none => .error (.panic "runtime error: invalid memory address or nil pointer dereference")
    | .ok (some o) =>
      match enc fval o with
      | .error e => .error e
      | .ok raw =>
        match variantLiteralPass enc rest with
        | .error e => .error e
        | .ok csr => .ok (raw :: csr)

/-- Spec description of the post-discriminant phase: every sub-field gets
its options from the variant table lookup `(table, discriminant, fieldName)`. -/
def variantLookupPass (ctx : Context) (enc : EncFun) (vn d : String) :
    List (String × String × GoValue) → Except Err (List (Option rawValue))
  | [] => .ok []
  | (name, _, fval) :: rest =>
    match getVariant ctx vn d name with
    | .error e => .error e
    | .ok elem =>
      match enc fval elem.opts with
      | .error e => .error e
      | .ok raw =>
        match variantLookupPass ctx enc vn d rest with
        | .error e => .error e
        | .ok csr => .ok (raw :: csr)

/-! ## Parser lemmas -/

/-- `splitCharList` never yields an empty token list (Go `strings.Split`
always yields at least one token). -/
theorem splitCharList_ne_nil (sep : Char) (cs : List Char) : splitCharList sep cs ≠ [] := by
  induction cs with
  | nil => simp [splitCharList]
  | cons c cs ih =>
    simp only [splitCharList]
    split
    · simp
    · cases h : splitCharList sep cs with
      | nil => exact absurd h ih
      | cons t ts => simp [h]

/-- Every character of a token produced by `splitCharList` is a character
of the input and is not the separator. -/
theorem mem_of_mem_splitCharList (sep : Char) :
    ∀ (cs : List Char) (t : List Char) (c : Char),
      t ∈ splitCharList sep cs → c ∈ t → c ∈ cs ∧ c ≠ sep := by
  intro cs
  induction cs with
  | nil =>
    intro t c ht hc
    simp [splitCharList] at ht
    subst ht
    simp at hc
  | cons c0 cs ih =>
    intro t c ht hc
    simp only [splitCharList] at ht
    by_cases hsep : c0 = sep
    · rw [if_pos hsep] at ht
      rcases List.mem_cons.mp ht with h | h
      · subst h; simp at hc
      · have := ih t c h hc
        exact ⟨List.mem_cons_of_mem _ this.1, this.2⟩
    · rw [if_neg hsep] at ht
      cases hr : splitCharList sep cs with
      | nil => exact absurd hr (splitCharList_ne_nil sep cs)
      | cons t0 ts =>
        rw [hr] at ht
        rcases List.mem_cons.mp ht with h | h
        · subst h
          rcases List.mem_cons.mp hc with h2 | h2
          · subst h2; exact ⟨List.mem_cons_self _ _, hsep⟩
          · have := ih t0 c (by rw [hr]; exact List.mem_cons_self _ _) h2
            exact ⟨List.mem_cons_of_mem _ this.1, this.2⟩
        · have := ih t c (by rw [hr]; exact List.mem_cons_of_mem _ h) hc
          exact ⟨List.mem_cons_of_mem _ this.1, this.2⟩

/-- Trimming a token consisting only of whitespace yields the empty token. -/
theorem trimChars_eq_nil (cs : List Char) (h : ∀ c ∈ cs, c.isWhitespace) :
    trimChars cs = [] := by
  unfold trimChars
  have h1 : cs.dropWhile Char.isWhitespace = [] := by
    induction cs with
    | nil => rfl
    | cons c cs ih =>
      rw [List.dropWhile_cons_of_pos (h c (List.mem_cons_self _ _))]
      exact ih fun x hx => h x (List.mem_cons_of_mem _ hx)
  rw [h1]
  rfl

/-- Folding a list of tokens that all trim to the empty token leaves the
option set unchanged. -/
theorem parseTokens_of_trim_nil (opts : fieldOptions) (toks : List (List Char))
    (h : ∀ t ∈ toks, trimChars t = []) : parseTokens opts toks = .ok opts := by
  induction toks with
  | nil => rfl
  | cons t ts ih =>
    have ht : trimChars t = [] := h t (List.mem_cons_self _ _)
    simp only [parseTokens, ht]
    have : parseOption opts (splitCharList ':' []) = .ok opts := rfl
    rw [this]
    exact ih fun x hx => h x (List.mem_cons_of_mem _ hx)

/-- C9 — a directive string consisting only of commas and whitespace
(including the empty string) parses successfully to the empty directive set:
empty tokens between commas are silently skipped, not reported as
unknown-token errors. -/
theorem C9_commas_whitespace_parse_to_empty (s : String)
    (h : s.data.all (fun c => c == ',' || c.isWhitespace) = true) :
    parseOptions s = .ok (some {}) := by
  have hchar : ∀ c ∈ s.data, c = ',' ∨ c.isWhitespace := by
    intro c hc
    have := List.all_eq_true.mp h c hc
    simpa [Bool.or_eq_true, beq_iff_eq] using this
  have hne : s ≠ "-" := by
    intro hs
    have : ('-' : Char) ∈ s.data := by rw [hs]; simp [String.data]
    rcases hchar '-' this with h1 | h1
    · exact absurd h1 (by decide)
    · exact absurd h1 (by decide)
  unfold parseOptions
  rw [if_neg hne]
  have htoks : parseTokens {} (splitCharList ',' s.data) = .ok {} := by
    apply parseTokens_of_trim_nil
    intro t ht
    apply trimChars_eq_nil
    intro c hc
    have hcs := mem_of_mem_splitCharList ',' s.data t c ht hc
    rcases hchar c hcs.1 with h1 | h1
    · exact absurd h1 hcs.2
    · exact h1
  rw [htoks]
  rfl

/-- Closed instance of C9 at the concrete directive string " , ,, ". -/
theorem C9_witness : parseOptions " , ,, " = .ok (some {}) :=
  C9_commas_whitespace_parse_to_empty " , ,, " (by decide)

/-- C4 counterexample — the directive string "explicit" (which contains the
`explicit` token but no `tag` token) parses successfully: the validation
step of the directive parser does not report the missing companion `tag`,
contrary to the claim that this failure is a parse-time error. -/
theorem C4_counterexample : parseOptions "explicit" = .ok (some { explicit := true }) := by
  decide

/-- C4 (amended) — a directive set with `explicit` but no `tag` is accepted
by the parser, and the failure is instead reported during encoding: at any
fuel, `applyOptions` rejects it with a syntax error. -/
theorem C4_explicit_without_tag_fails_at_encoding :
    parseOptions "explicit" = .ok (some { explicit := true }) ∧
    ∀ (ctx : Context) (f : Nat) (v : GoValue) (raw : rawValue),
      applyOptions ctx (f + 1) v raw { explicit := true } =
        .error (.syntaxErr ("invalid flag explicit without tag on Go type " ++ typeKey v)) := by
  refine ⟨by decide, fun ctx f v raw => ?_⟩
  rfl

/-- C3 — evaluation of the code at the failing input: the value 7 is
encoded with `choice:T` where the choice table entry for `int` in table `T`
carries the nested option `set`; the recursive `applyOptions` application of
the entry's options fails (`set` on a universal INTEGER node), but the
source assigns that error without checking it and immediately writes the
entry's class through the nil result pointer, so the encode ends in a
nil-pointer panic instead of returning the error. -/
theorem C3_choice_recursion_error_discarded_panics :
    EncodeWithOptions
      { der := false,
        choiceTable := [{ table := "T", typeName := "int", Class := 2, Tag := 1,
                          opts := { set := true } }] }
      12 (.vint 7) "choice:T" =
      .error (.panic "runtime error: invalid memory address or nil pointer dereference") := by
  decide

/-- C6 — the `explicit` wrap: encoding the integer 7 with directive
`tag:5,explicit` yields the bytes of an outer constructed context-specific
node with tag 5 whose content is exactly the full serialization of the
inner universal INTEGER node with content byte 0x07; and in general, when
`explicit` and `tag` are both set (and no other post-processing directive
interferes), `applyOptions` serializes the current node fully and wraps
those bytes in a new constructed node, the inner node retaining its
original tag inside the content. -/
theorem C6_explicit_tag_wrap :
    (EncodeWithOptions { der := false } 12 (.vint 7) "tag:5,explicit" =
       .ok (rawEncode { Class := classContextSpecific, Tag := 5, Constructed := true,
                        Content := rawEncode { Tag := tagInteger, Content := [7] } }) ∧
     encode { der := false } 12 (.vint 7) { explicit := true, tag := some 5 } =
       .ok (some { Class := classContextSpecific, Tag := 5, Constructed := true,
                   Content := rawEncode { Tag := tagInteger, Content := [7] } })) ∧
    ∀ (ctx : Context) (f : Nat) (v : GoValue) (raw : rawValue) (opts : fieldOptions) (t : Int),
      opts.explicit = true → opts.tag = some t → opts.set = false → opts.choice = none →
      opts.universal = false → opts.application = false → opts.indefinite = false →
      applyOptions ctx (f + 1) v raw opts =
        .ok { Class := classContextSpecific, Tag := goUint t, Constructed := true,
              Indefinite := false, Content := rawEncode raw } := by
  refine ⟨⟨by decide, by decide⟩, fun ctx f v raw opts t h1 h2 h3 h4 h5 h6 h7 => ?_⟩
  simp [applyOptions, h1, h2, h3, h4, h5, h6, h7]

/-- Closed instance of the general part of C6 at a concrete node and
directive set. -/
theorem C6_witness :
    applyOptions { der := false } 5 (.vint 7) { Tag := tagInteger, Content := [7] }
      { explicit := true, tag := some 5 } =
      .ok { Class := classContextSpecific, Tag := 5, Constructed := true,
            Content := rawEncode { Tag := tagInteger, Content := [7] } } :=
  (C6_explicit_tag_wrap.2 { der := false } 4 (.vint 7) { Tag := tagInteger, Content := [7] }
    { explicit := true, tag := some 5 } 5 rfl rfl rfl rfl rfl rfl rfl).trans (by decide)

/-- C1 — default substitution: when a `default` directive is present and the
value is empty, a DER context omits the field entirely (absent result),
while a BER context substitutes the freshly constructed default value and
encodes it through the normal classify/post-process pipeline. -/
theorem C1_default_substitution (ctx : Context) (f : Nat) (v : GoValue)
    (opts : fieldOptions) (d : Int)
    (hd : opts.defaultValue = some d) (he : isEmpty v = true) :
    (ctx.der = true → encode ctx (f + 1) v opts = .ok none) ∧
    (ctx.der = false → ∀ dv, newDefaultValue v opts = .ok dv →
      encode ctx (f + 1) v opts =
        match encodeValue ctx (encode ctx f) (encodeTop (encode ctx f)) dv opts with
        | .error e => .error e
        | .ok raw =>
          match applyOptions ctx (f + 1) dv raw opts with
          | .error e => .error e
          | .ok raw2 => .ok (some raw2)) := by
  constructor
  · intro hder
    simp [encode, hd, he, hder]
  · intro hder dv hdv
    simp [encode, hd, he, hder, hdv]

/-- Closed instance of C1: the empty integer with `default:7` is omitted in
DER mode and encoded as the INTEGER 7 in BER mode. -/
theorem C1_witness :
    encode { der := true } 12 (.vint 0) { defaultValue := some 7 } = .ok none ∧
    encode { der := false } 12 (.vint 0) { defaultValue := some 7 } =
      .ok (some { Tag := tagInteger, Content := [7] }) :=
  ⟨(C1_default_substitution { der := true } 11 (.vint 0) { defaultValue := some 7 } 7
      rfl rfl).1 rfl,
   ((C1_default_substitution { der := false } 11 (.vint 0) { defaultValue := some 7 } 7
      rfl rfl).2 rfl (.vint 7) rfl).trans (by decide)⟩

/-! ## Struct traversal lemmas -/

/-- `getRawValuesFromFields` distributes over list append: the children of
a concatenation of field lists are the concatenation of the children (with
left-to-right error propagation). -/
theorem getRawValuesFromFields_append (ctx : Context) (enc : EncFun) :
    ∀ (l1 l2 : List (String × String × GoValue)),
      getRawValuesFromFields ctx enc (l1 ++ l2) =
        match getRawValuesFromFields ctx enc l1 with
        | .error e => .error e
        | .ok a =>
          match getRawValuesFromFields ctx enc l2 with
          | .error e => .error e
          | .ok b => .ok (a ++ b) := by
  intro l1 l2
  induction l1 with
  | nil =>
    simp only [List.nil_append, getRawValuesFromFields]
    cases getRawValuesFromFields ctx enc l2 <;> rfl
  | cons fld l1 ih =>
    obtain ⟨name, tagStr, fval⟩ := fld
    simp only [List.cons_append, getRawValuesFromFields]
    by_cases hex : isFieldExported name
    · simp only [if_pos hex]
      cases hp : parseOptions tagStr with
      | error e => rfl
      | ok o =>
        cases o with
        | none => exact ih
        | some opts =>
          cases hv : opts.variant with
          | none =>
            cases he : enc fval opts with
            | error e => simp [hv, he]
            | ok raw =>
              simp only [hv, he, List.append_eq]
              rw [ih]
              cases getRawValuesFromFields ctx enc l1 <;>
                cases getRawValuesFromFields ctx enc l2 <;> rfl
          | some vn =>
            cases fval with
            | vstruct tn subs =>
              simp only [hv]
              cases hev : encodeVariantFields ctx enc vn "" subs with
              | error e => simp [hev]
              | ok cs =>
                simp only [hev, List.append_eq]
                rw [ih]
                cases getRawValuesFromFields ctx enc l1 <;>
                  cases getRawValuesFromFields ctx enc l2 <;>
                  simp [List.append_assoc]
            | vint n => simp [hv]
            | vbool b => simp [hv]
            | vstr s => simp [hv]
            | vbytes bs => simp [hv]
            | vslice tn es => simp [hv]
    · simp only [if_neg hex]
      exact ih

/-- C7 counterexample — a field whose directive set carries `optional`
together with `default:1`, holding the empty integer, does not produce an
absent result in BER mode: the default substitution fires first and a node
is produced, contrary to the claim that every `optional` field with an
empty value is absent. -/
theorem C7_counterexample :
    encode { der := false } 12 (.vint 0) { optional := true, defaultValue := some 1 } ≠
      .ok none := by
  decide

/-- C7 (amended) — a field carrying `optional` and no `default` whose value
is empty encodes to an absent result; an absent field contributes no node
and no bytes to the enclosing struct content; and a field with a non-empty
value never yields an absent result on success. -/
theorem C7_optional_empty_absent :
    (∀ (ctx : Context) (f : Nat) (v : GoValue) (opts : fieldOptions),
      opts.optional = true → opts.defaultValue = none → isEmpty v = true →
      encode ctx (f + 1) v opts = .ok none) ∧
    (∀ (ctx : Context) (enc : EncFun) (pre post : List (String × String × GoValue))
      (name tagStr : String) (v : GoValue) (o : fieldOptions),
      isFieldExported name = true → parseOptions tagStr = .ok (some o) → o.variant = none →
      enc v o = .ok none →
      encodeStruct ctx enc (pre ++ (name, tagStr, v) :: post) =
        encodeStruct ctx enc (pre ++ post)) ∧
    (∀ (ctx : Context) (f : Nat) (v : GoValue) (opts : fieldOptions) (r : Option rawValue),
      isEmpty v = false → encode ctx (f + 1) v opts = .ok r → ∃ n, r = some n) := by
  refine ⟨fun ctx f v opts h1 h2 h3 => ?_, fun ctx enc pre post name tagStr v o h1 h2 h3 h4 => ?_,
    fun ctx f v opts r h1 h2 => ?_⟩
  · simp [encode, h1, h2, h3]
  · have hmid : getRawValuesFromFields ctx enc ((name, tagStr, v) :: post) =
        match getRawValuesFromFields ctx enc post with
        | .error e => .error e
        | .ok csr => .ok (none :: csr) := by
      simp [getRawValuesFromFields, h1, h2, h3, h4]
    simp only [encodeStruct, getRawValuesFromFields_append, hmid]
    cases getRawValuesFromFields ctx enc pre with
    | error e => rfl
    | ok a =>
      cases getRawValuesFromFields ctx enc post with
      | error e => rfl
      | ok b => simp [encodeRawValues, rawEncodeOpt]
  · cases hev : encodeValue ctx (encode ctx f) (encodeTop (encode ctx f)) v opts with
    | error e =>
      exfalso
      simp [encode, h1, hev] at h2
    | ok raw =>
      cases hao : applyOptions ctx (f + 1) v raw opts with
      | error e =>
        exfalso
        simp [encode, h1, hev, hao] at h2
      | ok raw2 =>
        refine ⟨raw2, ?_⟩
        simp [encode, h1, hev, hao] at h2
        first
        | exact h2
        | exact h2.symm

/-- Closed instances of the three parts of C7 at concrete inputs. -/
theorem C7_witness :
    encode { der := true } 12 (.vstr "") { optional := true } = .ok none ∧
    encodeStruct { der := false } (encode { der := false } 11)
      [("A", "", .vint 1), ("B", "optional", .vint 0), ("C", "", .vbool true)] =
      encodeStruct { der := false } (encode { der := false } 11)
        [("A", "", .vint 1), ("C", "", .vbool true)] ∧
    ∃ n, (some { Tag := tagInteger, Content := [5] } : Option rawValue) = some n :=
  ⟨C7_optional_empty_absent.1 { der := true } 11 (.vstr "") { optional := true }
      rfl rfl (by decide),
   C7_optional_empty_absent.2.1 { der := false } (encode { der := false } 11)
      [("A", "", .vint 1)] [("C", "", .vbool true)] "B" "optional" (.vint 0)
      { optional := true } (by decide) (by decide) rfl (by decide),
   C7_optional_empty_absent.2.2 { der := false } 11 (.vint 5) {}
      (some { Tag := tagInteger, Content := [5] }) (by decide) (by decide)⟩

/-- C2 counterexample — two field-order permutations of the same field
values (two INTEGER fields, equal `(class, tag)` sort keys) encoded as a
DER SET yield different bytes: the sort key only covers class and tag, so
canonical ordering is not order-independent, contrary to the claim. -/
theorem C2_counterexample :
    EncodeWithOptions { der := true } 12
        (.vstruct "S" [("A", "", .vint 1), ("B", "", .vint 2)]) "set" ≠
      EncodeWithOptions { der := true } 12
        (.vstruct "S" [("B", "", .vint 2), ("A", "", .vint 1)]) "set" := by
  decide

/-- C2 (amended) — for a struct encoded with `set`, in DER mode the
children are stably sorted ascending by `(class, tag)` before
concatenation, so two field-order permutations of the same field values
yield byte-identical output whenever the children's `(class, tag)` keys are
pairwise distinct; in BER mode declaration order is preserved (no sorting). -/
theorem C2_set_der_sorting (ctx : Context) (enc : EncFun)
    (f1 f2 : List (String × String × GoValue)) (c1 c2 : List (Option rawValue))
    (h1 : getRawValuesFromFields ctx enc f1 = .ok c1)
    (h2 : getRawValuesFromFields ctx enc f2 = .ok c2)
    (hp : c1.Perm c2) :
    (ctx.der = true → (c1.map rvKey).Nodup →
      encodeStructAsSet ctx enc f1 = encodeStructAsSet ctx enc f2) ∧
    (ctx.der = false → encodeStructAsSet ctx enc f1 = .ok (encodeRawValues c1)) := by
  constructor
  · intro hder hnd
    have hnd2 : (c2.map rvKey).Nodup := ((hp.map rvKey).nodup_iff).mp hnd
    have hsort : List.insertionSort rvLe c1 = List.insertionSort rvLe c2 := by
      haveI : IsAntisymm (Option rawValue)
          (fun a b => rvLe a b ∧ rvKey a ≠ rvKey b) := by
        constructor
        intro a b hab hba
        exfalso
        apply hab.2
        have hx1 : (rvKey a).1 = (rvKey b).1 := by
          rcases hab.1 with h | h <;> rcases hba.1 with h' | h' <;> omega
        have hx2 : (rvKey a).2 = (rvKey b).2 := by
          rcases hab.1 with h | h <;> rcases hba.1 with h' | h' <;> omega
        exact Prod.ext hx1 hx2
      have hperm : (List.insertionSort rvLe c1).Perm (List.insertionSort rvLe c2) :=
        (List.perm_insertionSort rvLe c1).trans
          (hp.trans (List.perm_insertionSort rvLe c2).symm)
      have hkeys1 : List.Pairwise (fun a b => rvKey a ≠ rvKey b)
          (List.insertionSort rvLe c1) := by
        apply List.pairwise_map.mp
        exact (((List.perm_insertionSort rvLe c1).map rvKey).nodup_iff).mpr hnd
      have hkeys2 : List.Pairwise (fun a b => rvKey a ≠ rvKey b)
          (List.insertionSort rvLe c2) := by
        apply List.pairwise_map.mp
        exact (((List.perm_insertionSort rvLe c2).map rvKey).nodup_iff).mpr hnd2
      exact List.eq_of_perm_of_sorted hperm
        ((List.sorted_insertionSort rvLe c1).and hkeys1)
        ((List.sorted_insertionSort rvLe c2).and hkeys2)
    simp [encodeStructAsSet, h1, h2, hder, hsort]
  · intro hder
    simp [encodeStructAsSet, h1, hder]

/-- Closed instance of C2 (amended): with pairwise-distinct `(class, tag)`
keys (an INTEGER and a BOOLEAN field), the two permutations encode to the
same DER SET content. -/
theorem C2_witness :
    encodeStructAsSet { der := true } (encode { der := true } 11)
        [("A", "", .vint 1), ("B", "", .vbool true)] =
      encodeStructAsSet { der := true } (encode { der := true } 11)
        [("B", "", .vbool true), ("A", "", .vint 1)] :=
  (C2_set_der_sorting { der := true } (encode { der := true } 11)
    [("A", "", .vint 1), ("B", "", .vbool true)]
    [("B", "", .vbool true), ("A", "", .vint 1)]
    [some { Tag := tagInteger, Content := [1] }, some { Tag := tagBoolean, Content := [255] }]
    [some { Tag := tagBoolean, Content := [255] }, some { Tag := tagInteger, Content := [1] }]
    (by decide) (by decide)
    (List.Perm.swap (some { Tag := tagBoolean, Content := [255] } : Option rawValue)
      (some { Tag := tagInteger, Content := [1] } : Option rawValue) [])).1 rfl (by decide)

/-! ## Variant traversal lemmas -/

/-- Once a nonempty discriminant is recorded, the variant sub-field loop is
exactly the lookup pass: every remaining sub-field resolves its options
through the variant table. -/
theorem encodeVariantFields_lookup_mode (ctx : Context) (enc : EncFun) (vn u : String)
    (hu : u ≠ "") (subs : List (String × String × GoValue)) :
    encodeVariantFields ctx enc vn u subs = variantLookupPass ctx enc vn u subs := by
  induction subs with
  | nil => rfl
  | cons fld rest ih =>
    obtain ⟨name, tagStr, fval⟩ := fld
    simp only [encodeVariantFields, variantLookupPass, if_pos hu, ih]

/-- C5 — in a variant-tagged struct whose sub-fields are a block of
non-`unique` fields, then the `unique` discriminant field (with nonempty
string form, i.e. an actually recorded discriminant), then the remaining
fields: the loop parses the leading fields and the discriminant field with
their own literal directive strings and records the discriminant, and every
subsequent sub-field gets its options from the variant table lookup
`(table, discriminant, sub-field name)`. -/
theorem C5_variant_discriminant (ctx : Context) (enc : EncFun) (vn : String)
    (pre post : List (String × String × GoValue)) (uf : String × String × GoValue)
    (ou : fieldOptions)
    (hpre : ∀ f ∈ pre, ∃ o, parseOptions f.2.1 = .ok (some o) ∧ o.unique = false)
    (hu : parseOptions uf.2.1 = .ok (some ou)) (hou : ou.unique = true)
    (hd : goString uf.2.2 ≠ "") :
    encodeVariantFields ctx enc vn "" (pre ++ uf :: post) =
      match variantLiteralPass enc (pre ++ [uf]) with
      | .error e => .error e
      | .ok cs1 =>
        match variantLookupPass ctx enc vn (goString uf.2.2) post with
        | .error e => .error e
        | .ok cs2 => .ok (cs1 ++ cs2) := by
  have hne : ¬(("" : String) ≠ "") := by simp
  induction pre with
  | nil =>
    obtain ⟨uname, utag, uval⟩ := uf
    simp only at hu hd
    have hvu : (if ou.unique = true then goString uval else "") = goString uval := by
      rw [hou]; simp
    simp only [List.nil_append, encodeVariantFields, variantLiteralPass, if_neg hne, hu, hvu,
      encodeVariantFields_lookup_mode ctx enc vn (goString uval) hd post]
    cases he : enc uval ou <;>
      cases hl : variantLookupPass ctx enc vn (goString uval) post <;>
      simp [variantLiteralPass]
  | cons p pre ih =>
    obtain ⟨pname, ptag, pval⟩ := p
    obtain ⟨o, hpo, hpu⟩ := hpre (pname, ptag, pval) (List.mem_cons_self _ _)
    simp only at hpo
    have hvu : (if o.unique = true then goString pval else "") = "" := by
      rw [hpu]; simp
    have ih' := ih (fun f hf => hpre f (List.mem_cons_of_mem _ hf))
    simp only [List.cons_append, encodeVariantFields, variantLiteralPass, if_neg hne, hpo,
      List.append_eq]
    rw [hvu, ih']
    cases he : enc pval o <;>
      cases h1 : variantLiteralPass enc (pre ++ [uf]) <;>
      cases h2 : variantLookupPass ctx enc vn (goString uf.2.2) post <;> simp

/-- Closed instance of C5: one leading field, a `unique` string
discriminant valued "x", and one trailing field resolved through the
variant table. -/
theorem C5_witness :
    encodeVariantFields
        { der := false,
          variantTable := [{ table := "V", discriminant := "x", fieldName := "B",
                             opts := { tag := some 3 } }] }
        (encode
          { der := false,
            variantTable := [{ table := "V", discriminant := "x", fieldName := "B",
                               opts := { tag := some 3 } }] }
          10)
        "V" "" [("P", "", .vint 1), ("U", "unique", .vstr "x"), ("B", "", .vint 2)] =
      .ok [some { Tag := tagInteger, Content := [1] },
           some { Tag := tagOctetString, Content := [120] },
           some { Class := classContextSpecific, Tag := 3, Constructed := false,
                  Content := [2] }] :=
  (C5_variant_discriminant _ _ "V" [("P", "", .vint 1)] [("B", "", .vint 2)]
    ("U", "unique", .vstr "x") { unique := true }
    (by intro f hf; simp at hf; subst hf; exact ⟨{}, by decide, rfl⟩)
    (by decide) rfl (by decide)).trans (by decide)

/-- C10 — when every `unique`-marked sub-field of a variant-tagged struct
has the empty string as its string form, no discriminant is ever recorded
and no variant-table lookup occurs: every sub-field is processed with its
own literal directive string, exactly as the pre-discriminant pass does. -/
theorem C10_empty_discriminant_no_lookup (ctx : Context) (enc : EncFun) (vn : String)
    (subs : List (String × String × GoValue))
    (h : ∀ f ∈ subs, ∀ o, parseOptions f.2.1 = .ok (some o) → o.unique = true →
      goString f.2.2 = "") :
    encodeVariantFields ctx enc vn "" subs = variantLiteralPass enc subs := by
  have hne : ¬(("" : String) ≠ "") := by simp
  induction subs with
  | nil => rfl
  | cons fld rest ih =>
    obtain ⟨name, tagStr, fval⟩ := fld
    simp only [encodeVariantFields, variantLiteralPass, if_neg hne]
    cases hp : parseOptions tagStr with
    | error e => rfl
    | ok oo =>
      cases oo with
      | none => rfl
      | some o =>
        simp only
        have hu2 : (if o.unique = true then goString fval else "") = "" := by
          by_cases ho : o.unique = true
          · simp only [ho, if_true]
            exact h (name, tagStr, fval) (List.mem_cons_self _ _) o (by simpa using hp) ho
          · simp [ho]
        rw [hu2]
        cases he : enc fval o with
        | error e => rfl
        | ok raw =>
          rw [ih (fun f hf => h f (List.mem_cons_of_mem _ hf))]

/-- Closed instance of C10: the `unique` field holds the empty string while
a variant table entry exists that a lookup would hit; the trailing field is
nevertheless encoded with its own literal directive. -/
theorem C10_witness :
    encodeVariantFields
        { der := false,
          variantTable := [{ table := "V", discriminant := "", fieldName := "B",
                             opts := { tag := some 3 } }] }
        (encode
          { der := false,
            variantTable := [{ table := "V", discriminant := "", fieldName := "B",
                               opts := { tag := some 3 } }] }
          10)
        "V" "" [("U", "unique", .vstr ""), ("B", "", .vint 2)] =
      .ok [some { Tag := tagOctetString, Content := [] },
           some { Tag := tagInteger, Content := [2] }] :=
  (C10_empty_discriminant_no_lookup _ _ "V" [("U", "unique", .vstr ""), ("B", "", .vint 2)]
    (by
      intro f hf o hp ho
      rcases List.mem_cons.mp hf with h1 | h1
      · subst h1; rfl
      · simp at h1
        subst h1
        rw [show o = {} by
          have : parseOptions "" = .ok (some {}) := by decide
          rw [this] at hp
          exact (Option.some.injEq _ _ ▸ (Except.ok.injEq _ _ ▸ hp)).symm] at ho
        exact absurd ho (by decide))).trans (by decide)

/-! ## Choices traversal lemmas -/

/-- The top-level continuation passed to the traversal engine by `encode`
at fuel `g` is exactly `EncodeWithOptions` at fuel `g`. -/
theorem encodeTop_eq_EncodeWithOptions (ctx : Context) (g : Nat) :
    encodeTop (encode ctx g) = EncodeWithOptions ctx g := rfl

/-- `encodeChoices` is the element-wise full top-level encoding with the
synthesized directive `choice:<name>`, concatenated in element order (with
left-to-right error propagation, as monadic mapping has). -/
theorem encodeChoices_eq_mapM (enc2 : EncTopFun) (nm : String) :
    ∀ elems : List GoValue,
      encodeChoices enc2 nm elems =
        Except.map List.flatten
          (List.mapM' (fun e => enc2 e ("choice:" ++ nm)) elems) := by
  intro elems
  induction elems with
  | nil => rfl
  | cons e es ih =>
    rw [List.mapM'_cons]
    cases he : enc2 e ("choice:" ++ nm) with
    | error er2 => simp only [encodeChoices, he]; rfl
    | ok bs =>
      cases hm : List.mapM' (fun e => enc2 e ("choice:" ++ nm)) es with
      | error er2 =>
        have h2 : encodeChoices enc2 nm es = .error er2 := by rw [ih, hm]; rfl
        simp only [encodeChoices, he, h2, hm]
        rfl
      | ok ls =>
        have h2 : encodeChoices enc2 nm es = .ok ls.flatten := by rw [ih, hm]; rfl
        simp only [encodeChoices, he, h2, hm]
        rfl

/-- When every element of a prefix encodes successfully and the next
element fails, `encodeChoices` fails with that element's error. -/
theorem encodeChoices_append_error (enc2 : EncTopFun) (nm : String)
    (pre rest : List GoValue) (b : GoValue) (er : Err)
    (hpre : ∀ e ∈ pre, ∃ bs, enc2 e ("choice:" ++ nm) = .ok bs)
    (hb : enc2 b ("choice:" ++ nm) = .error er) :
    encodeChoices enc2 nm (pre ++ b :: rest) = .error er := by
  induction pre with
  | nil => simp [encodeChoices, hb]
  | cons p pre ih =>
    obtain ⟨bs, hp⟩ := hpre p (List.mem_cons_self _ _)
    simp [encodeChoices, hp, ih (fun e he => hpre e (List.mem_cons_of_mem _ he))]

/-- C8 — a slice with non-byte element type under `choices:<name>`: every
element is encoded through the full top-level encode path with the
synthesized per-element directive `choice:<name>`, results concatenated in
original element order (first conjunct); an element whose concrete type is
not registered in the named table fails with the lookup error (second
conjunct); and that failure aborts the whole slice encode with the same
error, producing no bytes (third conjunct: the result is the error, not a
byte string). -/
theorem C8_choices_elementwise (ctx : Context) (f : Nat) (nm tn : String)
    (pre rest : List GoValue) (k : Int) (er : Err)
    (hparse : parseOptions ("choice:" ++ nm) = .ok (some { choice := some nm }))
    (hk : (k == 0) = false)
    (hlook : getChoiceByType ctx nm "int" = .error er)
    (hpre : ∀ e ∈ pre, ∃ bs, EncodeWithOptions ctx (f + 1) e ("choice:" ++ nm) = .ok bs) :
    (∀ (g : Nat) (elems : List GoValue),
      encodeChoices (encodeTop (encode ctx g)) nm elems =
        Except.map List.flatten
          (List.mapM' (fun e => EncodeWithOptions ctx g e ("choice:" ++ nm)) elems)) ∧
    EncodeWithOptions ctx (f + 1) (.vint k) ("choice:" ++ nm) = .error er ∧
    encode ctx (f + 1 + 1) (.vslice tn (pre ++ .vint k :: rest)) { choices := some nm } =
      .error er := by
  have hbad : EncodeWithOptions ctx (f + 1) (.vint k) ("choice:" ++ nm) = .error er := by
    have h2 : encode ctx (f + 1) (.vint k) { choice := some nm } = .error er := by
      simp [encode, isEmpty, hk, encodeValue, applyOptions, hlook, typeKey]
    show encodeTop (encode ctx (f + 1)) (.vint k) ("choice:" ++ nm) = .error er
    simp [encodeTop, hparse, h2]
  refine ⟨fun g elems => encodeChoices_eq_mapM (encodeTop (encode ctx g)) nm elems, hbad, ?_⟩
  have herr : encodeChoices (encodeTop (encode ctx (f + 1))) nm (pre ++ .vint k :: rest) =
      .error er :=
    encodeChoices_append_error (encodeTop (encode ctx (f + 1))) nm pre rest (.vint k) er
      (fun e he => hpre e he) hbad
  have hev : encodeValue ctx (encode ctx (f + 1)) (encodeTop (encode ctx (f + 1)))
      (.vslice tn (pre ++ .vint k :: rest)) { choices := some nm } = .error er := by
    simp only [encodeValue, herr]
  have hstep : encode ctx (f + 1 + 1) (.vslice tn (pre ++ .vint k :: rest))
      { choices := some nm } =
      match encodeValue ctx (encode ctx (f + 1)) (encodeTop (encode ctx (f + 1)))
          (.vslice tn (pre ++ .vint k :: rest)) { choices := some nm } with
      | .error e => .error e
      | .ok raw =>
        match applyOptions ctx (f + 1 + 1) (.vslice tn (pre ++ .vint k :: rest)) raw
            { choices := some nm } with
        | .error e => .error e
        | .ok raw2 => .ok (some raw2) := rfl
  rw [hstep, hev]

/-- Closed instance of C8: a two-entry slice where the boolean element is
registered in table X but the integer element is not; the whole encode
fails with the lookup error. -/
theorem C8_witness :
    encode
      { der := false,
        choiceTable := [{ table := "X", typeName := "bool", Class := 2, Tag := 0,
                          opts := {} }] }
      12 (.vslice "[]I" [.vbool true, .vint 5, .vint 9]) { choices := some "X" } =
      .error (.lookupErr "choice X not found for type int") :=
  (C8_choices_elementwise
    { der := false,
      choiceTable := [{ table := "X", typeName := "bool", Class := 2, Tag := 0,
                        opts := {} }] }
    10 "X" "[]I" [.vbool true] [.vint 9] 5
    (.lookupErr "choice X not found for type int")
    (by decide) (by decide) (by decide)
    (by
      intro e he
      simp at he
      subst he
      exact ⟨[128, 1, 255], by decide⟩)).2.2

end Asn1
